import Mathlib

/-!
Verification development for the group-cache core of open-im-server:
a shallow embedding of pkg/common/db/cache/group.go (the Redis-backed
group cache) together with the Mongo group-member adapter, and proofs
of the specified properties.

The cache backend is modelled as an association list from key strings
to stored entries; every operation threads this state explicitly, so
reads that populate the cache and the deferred-invalidation commit are
both visible in the types.
-/

set_option autoImplicit false

namespace OpenIM.GroupCache

/-- Error taxonomy of the cache core (spec §7): NotFound from a loader,
the dedicated NotIndexed condition of the index helpers, a decode
failure of a cached entry, the nil-function call that Go would turn
into a runtime panic, and arbitrary loader failures. -/
inductive Err where
  | notFound
  | idx
  | decodeFail
  | nilFunc
  | other (msg : String)
  deriving DecidableEq

/-- The dedicated index error of the index helpers (declared in
meta_cache.go, which is not in src/; modelled as a distinguished
error value, distinct by construction from NotFound). -/
def errIndex : Err := Err.idx

/-- Group record (relation.GroupModel); only the fields this core
reads are carried. -/
structure GroupModel where
  groupID : String
  groupName : String
  deriving DecidableEq

/-- Group-member record (relation.GroupMemberModel); only the fields
this core reads are carried. -/
structure GroupMemberModel where
  groupID : String
  userID : String
  roleLevel : Int
  deriving DecidableEq

/-- relation.GroupSimpleUserID: the (membership hash, member count)
pair returned by GetGroupMemberHashMap. Hash is a uint64, memberNum a
uint32; both are modelled as Nat with explicit truncation where the
code converts. -/
structure GroupSimpleUserID where
  hash : Nat
  memberNum : Nat
  deriving DecidableEq

/-- uint32(n) for an int64 n, as Go computes it. -/
def u32OfInt (n : Int) : Nat := (n % (2 ^ 32)).toNat

/-- uint32(n) for a nonnegative length n. -/
def u32 (n : Nat) : Nat := n % 2 ^ 32

/-- A value stored in the cache backend: the serialized forms this
core writes (group records, member records, string lists, uint64
hashes, int64 counts). -/
inductive CVal where
  | group (g : GroupModel)
  | member (m : GroupMemberModel)
  | strings (ss : List String)
  | u64 (n : Nat)
  | i64 (n : Int)
  deriving DecidableEq

/-- One cache entry: the stored value and the TTL it was written with
(modelled in seconds). -/
structure Entry where
  val : CVal
  ttl : Nat
  deriving DecidableEq

/-- The cache backend state: an association list from key strings to
entries (first binding wins on lookup; inserts prepend fresh keys). -/
abbrev Backend := List (String × Entry)

/-- groupExpireTime = time.Second * 60 * 60 * 12, modelled in
seconds. -/
def groupExpireTime : Nat := 60 * 60 * 12

def groupInfoKey : String := "GROUP_INFO:"

def groupMemberIDsKey : String := "GROUP_MEMBER_IDS:"

def groupMembersHashKey : String := "GROUP_MEMBERS_HASH2:"

def groupMemberInfoKey : String := "GROUP_MEMBER_INFO:"

def joinedGroupsKey : String := "JOIN_GROUPS_KEY:"

def groupMemberNumKey : String := "GROUP_MEMBER_NUM_CACHE:"

def getGroupInfoKey (groupID : String) : String := groupInfoKey ++ groupID

def getJoinedGroupsKey (userID : String) : String := joinedGroupsKey ++ userID

def getGroupMembersHashKey (groupID : String) : String := groupMembersHashKey ++ groupID

def getGroupMemberIDsKey (groupID : String) : String := groupMemberIDsKey ++ groupID

def getGroupMemberInfoKey (groupID userID : String) : String :=
  groupMemberInfoKey ++ groupID ++ "-" ++ userID

def getGroupMemberNumKey (groupID : String) : String := groupMemberNumKey ++ groupID

/-- Modelled from the spec: the group-collection adapter (takeGroup of
the PersistenceAdapter capability, §6) is not in src/. It returns the
stored group record for the ID, or NotFound. -/
def takeGroup (db : List GroupModel) (groupID : String) : Except Err GroupModel :=
  match db.find? (fun g => g.groupID == groupID) with
  | some g => .ok g
  | none => .error .notFound

/-- GroupMemberMgo.FindMemberUserID: the user IDs of the documents of
this group, in document order. -/
def FindMemberUserID (db : List GroupMemberModel) (groupID : String) : List String :=
  (db.filter (fun m => m.groupID == groupID)).map (fun m => m.userID)

/-- GroupMemberMgo.Take: the member document of (groupID, userID), or
NotFound. -/
def takeGroupMember (db : List GroupMemberModel) (groupID userID : String) :
    Except Err GroupMemberModel :=
  match db.find? (fun m => m.groupID == groupID && m.userID == userID) with
  | some m => .ok m
  | none => .error .notFound

/-- GroupMemberMgo.FindUserJoinedGroupID: the group IDs of the
documents of this user. -/
def FindUserJoinedGroupID (db : List GroupMemberModel) (userID : String) : List String :=
  (db.filter (fun m => m.userID == userID)).map (fun m => m.groupID)

/-- GroupMemberMgo.TakeGroupMemberNum: the count of documents of this
group (int64). -/
def TakeGroupMemberNum (db : List GroupMemberModel) (groupID : String) : Int :=
  ((db.filter (fun m => m.groupID == groupID)).length : Int)

/-- Modelled from the spec: the InvalidationAccumulator ("metaCache",
§4.3) is implemented in meta_cache.go, which is not in src/. It
carries the growable set of pending delete keys; AddKeys appends,
GetPreDelKeys reads the pending set. -/
structure MetaCache where
  preDelKeys : List String
  deriving DecidableEq

/-- Modelled from the spec: NewMetaCacheRedis builds an accumulator
seeded with the given keys. -/
def NewMetaCacheRedis (keys : List String) : MetaCache := ⟨keys⟩

/-- Modelled from the spec: addKeys appends to the pending set; pure
in-process mutation, no backend I/O (§4.3). -/
def AddKeys (m : MetaCache) (keys : List String) : MetaCache :=
  ⟨m.preDelKeys ++ keys⟩

/-- Modelled from the spec: the read accessor of the pending set
(§4.3). -/
def GetPreDelKeys (m : MetaCache) : List String := m.preDelKeys

/-- GroupCacheRedis: the domain cache. The Redis client handle is
replaced by explicit Backend threading on each operation; the unused
group-request handle is omitted. hashCode is the injected membership
hash function, nilable in Go and hence an Option here. -/
structure GroupCacheRedis where
  metaCache : MetaCache
  groupDB : List GroupModel
  groupMemberDB : List GroupMemberModel
  expireTime : Nat
  hashCode : Option (String → Except Err Nat)

/-- NewGroupCacheRedis: constructs the cache with expireTime set to
groupExpireTime and an empty accumulator. -/
def NewGroupCacheRedis (groupDB : List GroupModel) (groupMemberDB : List GroupMemberModel)
    (hashCode : Option (String → Except Err Nat)) : GroupCacheRedis :=
  { metaCache := NewMetaCacheRedis []
    groupDB := groupDB
    groupMemberDB := groupMemberDB
    expireTime := groupExpireTime
    hashCode := hashCode }

/-- NewCache: a fresh accumulator instance copying the handles and the
current pending keys. The source's struct literal lists every field
except hashCode, which is therefore left at its zero value (nil). -/
def NewCache (g : GroupCacheRedis) : GroupCacheRedis :=
  { metaCache := NewMetaCacheRedis (GetPreDelKeys g.metaCache)
    groupDB := g.groupDB
    groupMemberDB := g.groupMemberDB
    expireTime := g.expireTime
    hashCode := none }

/-- AddKeys lifted through the embedded metaCache of the domain
cache. -/
def cacheAddKeys (g : GroupCacheRedis) (keys : List String) : GroupCacheRedis :=
  { g with metaCache := AddKeys g.metaCache keys }

/-- Modelled from the spec: commit (§4.3) issues one batch delete of
all pending keys against the cache backend. -/
def ExecDel (g : GroupCacheRedis) (be : Backend) : Backend :=
  be.filter (fun kv => !(decide (kv.1 ∈ GetPreDelKeys g.metaCache)))

/-- Modelled from the spec: getCache (the KeyLoader primitive, §4.1)
lives in meta_cache.go, not in src/. Sequential semantics: on hit,
decode the stored entry and return it without calling the loader; on
miss, run the loader, store the encoded result under the key with the
given TTL and return it; on loader failure store nothing and surface
the error. The single-flight locking is a concurrency concern outside
this embedding. -/
def getCache {α : Type} (be : Backend) (key : String) (expire : Nat)
    (enc : α → CVal) (dec : CVal → Option α) (load : Except Err α) :
    Except Err α × Backend :=
  match be.lookup key with
  | some e =>
    match dec e.val with
    | some v => (.ok v, be)
    | none => (.error .decodeFail, be)
  | none =>
    match load with
    | .ok v => (.ok v, (key, ⟨enc v, expire⟩) :: be)
    | .error e => (.error e, be)

/-- Modelled from the spec: batchGetCache2 (the BatchLoader, §4.2)
lives in meta_cache.go, not in src/. It funnels every identifier
through getCache in input order, collecting successes; a NotFound
outcome for one identifier leaves that entry absent (not an error),
while any other failure fails the whole batch. -/
def batchGetCache2 {α K : Type} (be : Backend) (expire : Nat) (keys : List K)
    (keyOf : K → String) (enc : α → CVal) (dec : CVal → Option α)
    (load : K → Except Err α) : Except Err (List α) × Backend :=
  match keys with
  | [] => (.ok [], be)
  | k :: ks =>
    match getCache be (keyOf k) expire enc dec (load k) with
    | (.error .notFound, be1) => batchGetCache2 be1 expire ks keyOf enc dec load
    | (.error e, be1) => (.error e, be1)
    | (.ok v, be1) =>
      match batchGetCache2 be1 expire ks keyOf enc dec load with
      | (.ok vs, be2) => (.ok (v :: vs), be2)
      | (.error e, be2) => (.error e, be2)

def encGroup : GroupModel → CVal := CVal.group

def decGroup : CVal → Option GroupModel
  | .group g => some g
  | _ => none

def encMember : GroupMemberModel → CVal := CVal.member

def decMember : CVal → Option GroupMemberModel
  | .member m => some m
  | _ => none

def encStrings : List String → CVal := CVal.strings

def decStrings : CVal → Option (List String)
  | .strings ss => some ss
  | _ => none

def encU64 : Nat → CVal := CVal.u64

def decU64 : CVal → Option Nat
  | .u64 n => some n
  | _ => none

def encI64 : Int → CVal := CVal.i64

def decI64 : CVal → Option Int
  | .i64 n => some n
  | _ => none

/-- GetGroupInfo: single-key get-or-load of a group record. -/
def GetGroupInfo (g : GroupCacheRedis) (be : Backend) (groupID : String) :
    Except Err GroupModel × Backend :=
  getCache be (getGroupInfoKey groupID) g.expireTime encGroup decGroup
    (takeGroup g.groupDB groupID)

/-- GetGroupsInfo: batch get-or-load of group records. -/
def GetGroupsInfo (g : GroupCacheRedis) (be : Backend) (groupIDs : List String) :
    Except Err (List GroupModel) × Backend :=
  batchGetCache2 be g.expireTime groupIDs getGroupInfoKey encGroup decGroup
    (fun groupID => takeGroup g.groupDB groupID)

/-- GetGroupMemberIDs: get-or-load of the cached member-ID list of a
group, loading via FindMemberUserID. -/
def GetGroupMemberIDs (g : GroupCacheRedis) (be : Backend) (groupID : String) :
    Except Err (List String) × Backend :=
  getCache be (getGroupMemberIDsKey groupID) g.expireTime encStrings decStrings
    (.ok (FindMemberUserID g.groupMemberDB groupID))

/-- GetGroupMembersHash: get-or-load of the membership hash. The
loader invokes the injected hashCode function; when that field is nil
(as on every NewCache-derived instance) Go would panic on the call,
modelled here as the distinguished nilFunc outcome. -/
def GetGroupMembersHash (g : GroupCacheRedis) (be : Backend) (groupID : String) :
    Except Err Nat × Backend :=
  getCache be (getGroupMembersHashKey groupID) g.expireTime encU64 decU64
    (match g.hashCode with
     | some f => f groupID
     | none => .error .nilFunc)

/-- GetGroupMemberNum: get-or-load of the member count. -/
def GetGroupMemberNum (g : GroupCacheRedis) (be : Backend) (groupID : String) :
    Except Err Int × Backend :=
  getCache be (getGroupMemberNumKey groupID) g.expireTime encI64 decI64
    (.ok (TakeGroupMemberNum g.groupMemberDB groupID))

/-- GetJoinedGroupIDs: get-or-load of the joined-group inverse
index. -/
def GetJoinedGroupIDs (g : GroupCacheRedis) (be : Backend) (userID : String) :
    Except Err (List String) × Backend :=
  getCache be (getJoinedGroupsKey userID) g.expireTime encStrings decStrings
    (.ok (FindUserJoinedGroupID g.groupMemberDB userID))

/-- GetGroupMemberInfo: get-or-load of one member record. -/
def GetGroupMemberInfo (g : GroupCacheRedis) (be : Backend) (groupID userID : String) :
    Except Err GroupMemberModel × Backend :=
  getCache be (getGroupMemberInfoKey groupID userID) g.expireTime encMember decMember
    (takeGroupMember g.groupMemberDB groupID userID)

/-- GetGroupMembersInfo: batch get-or-load of the member records of
the given user IDs in that group. -/
def GetGroupMembersInfo (g : GroupCacheRedis) (be : Backend) (groupID : String)
    (userIDs : List String) : Except Err (List GroupMemberModel) × Backend :=
  batchGetCache2 be g.expireTime userIDs (fun userID => getGroupMemberInfoKey groupID userID)
    encMember decMember (fun userID => takeGroupMember g.groupMemberDB groupID userID)

/-- The loop of GetGroupMemberHashMap: per group ID, read the hash and
the count, fail fast on either error, and bind groupID to the pair in
the result map (newest binding first, as map assignment overwrites). -/
def hashMapLoop (g : GroupCacheRedis) (be : Backend) (groupIDs : List String)
    (res : List (String × GroupSimpleUserID)) :
    Except Err (List (String × GroupSimpleUserID)) × Backend :=
  match groupIDs with
  | [] => (.ok res, be)
  | groupID :: rest =>
    match GetGroupMembersHash g be groupID with
    | (.error e, be1) => (.error e, be1)
    | (.ok hsh, be1) =>
      match GetGroupMemberNum g be1 groupID with
      | (.error e, be2) => (.error e, be2)
      | (.ok num, be2) =>
        hashMapLoop g be2 rest ((groupID, ⟨hsh, u32OfInt num⟩) :: res)

/-- GetGroupMemberHashMap: for each group ID the pair of membership
hash and member count; any single failure fails the whole call with no
partial map. -/
def GetGroupMemberHashMap (g : GroupCacheRedis) (be : Backend) (groupIDs : List String) :
    Except Err (List (String × GroupSimpleUserID)) × Backend :=
  hashMapLoop g be groupIDs []

/-- Modelled from the spec: utils.BothExist comes from the external
OpenIMSDK/tools module and is not in src/. The spec fixes its meaning
at this call site as set intersection with the order of the cached
member-ID list preserved; the cached list is the second argument at
the call site. -/
def BothExist (userIDs groupMemberIDs : List String) : List String :=
  groupMemberIDs.filter (fun x => decide (x ∈ userIDs))

/-- Modelled from the spec: utils.Paginate comes from the external
OpenIMSDK/tools module and is not in src/. The spec's pagination
example (pageNumber=1 returns the first showNumber members) fixes
1-based pages: offset (pageNumber-1)*showNumber, length showNumber,
clamped at the end of the list; a non-positive pageNumber or
showNumber yields the empty page. -/
def Paginate {α : Type} (es : List α) (pageNumber showNumber : Int) : List α :=
  if pageNumber ≤ 0 then []
  else if showNumber ≤ 0 then []
  else (es.drop ((pageNumber - 1) * showNumber).toNat).take showNumber.toNat

/-- GetGroupMembersPage, translated statement by statement from the
source: resolve the cached member-ID list; when the caller supplied a
list, intersect; fetch records for Paginate(ids, showNumber,
showNumber) — the source passes showNumber for BOTH Paginate
arguments, so the pageNumber parameter is never used — and return
uint32(len(ids)) as the total together with the records and the
error. The result mirrors Go's (total, members, err) triple. -/
def GetGroupMembersPage (g : GroupCacheRedis) (be : Backend) (groupID : String)
    (userIDs : Option (List String)) (showNumber pageNumber : Int) :
    (Nat × List GroupMemberModel × Option Err) × Backend :=
  match GetGroupMemberIDs g be groupID with
  | (.error e, be1) => ((0, [], some e), be1)
  | (.ok groupMemberIDs, be1) =>
    let ids := match userIDs with
      | some u => BothExist u groupMemberIDs
      | none => groupMemberIDs
    match GetGroupMembersInfo g be1 groupID (Paginate ids showNumber showNumber) with
    | (.ok ms, be2) => ((u32 ids.length, ms, none), be2)
    | (.error e, be2) => ((u32 ids.length, [], some e), be2)

/-- The shared search loop of GetGroupIndex and GetGroupMemberIndex:
first index whose key equals the computed key, with nil error;
otherwise (0, errIndex). -/
def keyIndexLoop (key : String) : List String → Nat → Nat × Option Err
  | [], _ => (0, some errIndex)
  | k :: ks, i => if k == key then (i, none) else keyIndexLoop key ks (i + 1)

/-- GetGroupIndex: position of the group's info key among the batch
keys. -/
def GetGroupIndex (g : GroupCacheRedis) (group : GroupModel) (keys : List String) :
    Nat × Option Err :=
  keyIndexLoop (getGroupInfoKey group.groupID) keys 0

/-- GetGroupMemberIndex: position of the member's info key among the
batch keys. -/
def GetGroupMemberIndex (g : GroupCacheRedis) (groupMember : GroupMemberModel)
    (keys : List String) : Nat × Option Err :=
  keyIndexLoop (getGroupMemberInfoKey groupMember.groupID groupMember.userID) keys 0

/-- DelGroupsInfo: new accumulator with the info keys of the given
groups appended; no backend operation. -/
def DelGroupsInfo (g : GroupCacheRedis) (be : Backend) (groupIDs : List String) :
    GroupCacheRedis × Backend :=
  (cacheAddKeys (NewCache g) (groupIDs.map getGroupInfoKey), be)

/-- DelGroupMembersHash: new accumulator with the hash key of the
group appended; no backend operation. -/
def DelGroupMembersHash (g : GroupCacheRedis) (be : Backend) (groupID : String) :
    GroupCacheRedis × Backend :=
  (cacheAddKeys (NewCache g) [getGroupMembersHashKey groupID], be)

/-- DelGroupMemberIDs: new accumulator with the member-ID-list key of
the group appended; no backend operation. -/
def DelGroupMemberIDs (g : GroupCacheRedis) (be : Backend) (groupID : String) :
    GroupCacheRedis × Backend :=
  (cacheAddKeys (NewCache g) [getGroupMemberIDsKey groupID], be)

/-- DelJoinedGroupID: new accumulator with the joined-groups keys of
the given users appended; no backend operation. -/
def DelJoinedGroupID (g : GroupCacheRedis) (be : Backend) (userIDs : List String) :
    GroupCacheRedis × Backend :=
  (cacheAddKeys (NewCache g) (userIDs.map getJoinedGroupsKey), be)

/-- DelGroupMembersInfo: new accumulator with the member-info keys of
the given (group, user) pairs appended; no backend operation. -/
def DelGroupMembersInfo (g : GroupCacheRedis) (be : Backend) (groupID : String)
    (userIDs : List String) : GroupCacheRedis × Backend :=
  (cacheAddKeys (NewCache g) (userIDs.map (getGroupMemberInfoKey groupID)), be)

/-- DelGroupsMemberNum: new accumulator with the member-count keys of
the given groups appended; no backend operation. -/
def DelGroupsMemberNum (g : GroupCacheRedis) (be : Backend) (groupIDs : List String) :
    GroupCacheRedis × Backend :=
  (cacheAddKeys (NewCache g) (groupIDs.map getGroupMemberNumKey), be)

/-- Every key that be' binds differently from be was written with TTL
t: the frame form of "all get-or-load writes carry this TTL". -/
def WritesWithTTL (be be' : Backend) (t : Nat) : Prop :=
  ∀ k e, be'.lookup k = some e → be.lookup k = some e ∨ e.ttl = t

/-- A ten-member demonstration group used for concrete evaluations. -/
def demoMembers : List GroupMemberModel :=
  (List.range 10).map (fun i => { groupID := "g1", userID := "u" ++ toString i, roleLevel := 0 })

def demoGroups : List GroupModel := [{ groupID := "g1", groupName := "demo" }]

def demoCache : GroupCacheRedis :=
  NewGroupCacheRedis demoGroups demoMembers (some (fun _ => .ok 7))

/-- The member-ID list of the demonstration group. -/
def demoIDs : List String := (List.range 10).map (fun i => "u" ++ toString i)

end OpenIM.GroupCache

namespace OpenIM.GroupCache

/-- Deleting a pending key: after the batch delete of ExecDel, a key
in the pending set is absent from the backend. -/
lemma lookup_execDel_of_mem (g : GroupCacheRedis) (be : Backend) (k : String)
    (h : k ∈ GetPreDelKeys g.metaCache) : (ExecDel g be).lookup k = none := by
  rw [ExecDel, List.lookup_eq_none_iff]
  intro p hp
  have hmem := List.mem_filter.mp hp
  have hnp : p.1 ∉ GetPreDelKeys g.metaCache := by simpa using hmem.2
  simp only [bne_iff_ne, ne_eq]
  intro hk
  exact hnp (hk ▸ h)

/-- C8: the computed cache keys are exactly the fixed prefixes
concatenated with the identifiers (and groupID-dash-userID for the
per-member key). -/
theorem cache_key_format (groupID userID : String) :
    getGroupInfoKey groupID = "GROUP_INFO:" ++ groupID
  ∧ getGroupMemberIDsKey groupID = "GROUP_MEMBER_IDS:" ++ groupID
  ∧ getGroupMembersHashKey groupID = "GROUP_MEMBERS_HASH2:" ++ groupID
  ∧ getJoinedGroupsKey userID = "JOIN_GROUPS_KEY:" ++ userID
  ∧ getGroupMemberNumKey groupID = "GROUP_MEMBER_NUM_CACHE:" ++ groupID
  ∧ getGroupMemberInfoKey groupID userID = "GROUP_MEMBER_INFO:" ++ groupID ++ "-" ++ userID :=
  ⟨rfl, rfl, rfl, rfl, rfl, rfl⟩

/-- C9: no Del method touches the cache backend: each returns the
backend exactly as given (they only build key strings into the new
accumulator's pending set), and so does any chain of them. -/
theorem del_methods_leave_backend_unchanged (g : GroupCacheRedis) (be : Backend)
    (groupIDs userIDs : List String) (groupID x y : String) :
    (DelGroupsInfo g be groupIDs).2 = be
  ∧ (DelGroupMembersHash g be groupID).2 = be
  ∧ (DelGroupMemberIDs g be groupID).2 = be
  ∧ (DelJoinedGroupID g be userIDs).2 = be
  ∧ (DelGroupMembersInfo g be groupID userIDs).2 = be
  ∧ (DelGroupsMemberNum g be groupIDs).2 = be
  ∧ (DelGroupMembersHash (DelGroupsInfo g be [x]).1 (DelGroupsInfo g be [x]).2 y).2 = be :=
  ⟨rfl, rfl, rfl, rfl, rfl, rfl, rfl⟩

/-- C1: on the ten-member demonstration group, getGroupMembersPage
with showNumber 3 returns the members at offsets 6..8 for BOTH page 1
and page 2 — the source passes showNumber to Paginate in the page
position, so the pageNumber argument never influences the result, and
page 1 is not the first three members as specified. -/
theorem getGroupMembersPage_ignores_pageNumber :
    (GetGroupMembersPage demoCache [] "g1" none 3 1).1
        = (GetGroupMembersPage demoCache [] "g1" none 3 2).1
  ∧ (GetGroupMembersPage demoCache [] "g1" none 3 1).1
      = (10, [⟨"g1", "u6", 0⟩, ⟨"g1", "u7", 0⟩, ⟨"g1", "u8", 0⟩], none) :=
  ⟨rfl, rfl⟩

/-- C2: every Del method returns a fresh accumulator whose pending
set is the current pending set extended by exactly the keys computed
from the given IDs; chaining two Del calls therefore accumulates both
key sets, and committing the chained accumulator deletes a key added
by the earlier link. -/
theorem del_methods_accumulate (g : GroupCacheRedis) (be : Backend)
    (groupIDs userIDs : List String) (groupID x y : String) :
    GetPreDelKeys (DelGroupsInfo g be groupIDs).1.metaCache
        = GetPreDelKeys g.metaCache ++ groupIDs.map getGroupInfoKey
  ∧ GetPreDelKeys (DelGroupMembersHash g be groupID).1.metaCache
        = GetPreDelKeys g.metaCache ++ [getGroupMembersHashKey groupID]
  ∧ GetPreDelKeys (DelGroupMemberIDs g be groupID).1.metaCache
        = GetPreDelKeys g.metaCache ++ [getGroupMemberIDsKey groupID]
  ∧ GetPreDelKeys (DelJoinedGroupID g be userIDs).1.metaCache
        = GetPreDelKeys g.metaCache ++ userIDs.map getJoinedGroupsKey
  ∧ GetPreDelKeys (DelGroupMembersInfo g be groupID userIDs).1.metaCache
        = GetPreDelKeys g.metaCache ++ userIDs.map (getGroupMemberInfoKey groupID)
  ∧ GetPreDelKeys (DelGroupsMemberNum g be groupIDs).1.metaCache
        = GetPreDelKeys g.metaCache ++ groupIDs.map getGroupMemberNumKey
  ∧ (∀ k, k ∈ GetPreDelKeys (DelGroupMembersHash (DelGroupsInfo g be [x]).1 be y).1.metaCache
        ↔ k ∈ GetPreDelKeys g.metaCache ∨ k = getGroupInfoKey x ∨ k = getGroupMembersHashKey y)
  ∧ (ExecDel (DelGroupMembersHash (DelGroupsInfo g be [x]).1 be y).1 be).lookup
        (getGroupInfoKey x) = none := by
  refine ⟨rfl, rfl, rfl, rfl, rfl, rfl, ?_, ?_⟩
  · intro k
    simp [DelGroupsInfo, DelGroupMembersHash, cacheAddKeys, AddKeys, NewCache,
      NewMetaCacheRedis, GetPreDelKeys, or_assoc]
  · apply lookup_execDel_of_mem
    simp [DelGroupsInfo, DelGroupMembersHash, cacheAddKeys, AddKeys, NewCache,
      NewMetaCacheRedis, GetPreDelKeys]

/-- C2 witness: committing the chained accumulator built from two Del
calls deletes the group-info key that the first link added. -/
theorem del_methods_accumulate_witness :
    (ExecDel (DelGroupMembersHash (DelGroupsInfo demoCache
        [(getGroupInfoKey "a", ⟨CVal.u64 1, 5⟩)] ["a"]).1
        [(getGroupInfoKey "a", ⟨CVal.u64 1, 5⟩)] "b").1
      [(getGroupInfoKey "a", ⟨CVal.u64 1, 5⟩)]).lookup (getGroupInfoKey "a") = none :=
  (del_methods_accumulate demoCache [(getGroupInfoKey "a", ⟨CVal.u64 1, 5⟩)]
    [] [] "" "a" "b").2.2.2.2.2.2.2

/-- C4: NewCache omits the hashCode field, so every accumulator it
produces — including the result of each Del method — carries a nil
hashCode loader, and GetGroupMembersHash on such an instance hits the
nil-function call on a cache miss. -/
theorem newCache_nil_hashCode (g : GroupCacheRedis) (be : Backend)
    (groupIDs userIDs : List String) (groupID : String) :
    (NewCache g).hashCode = none
  ∧ (DelGroupsInfo g be groupIDs).1.hashCode = none
  ∧ (DelGroupMembersHash g be groupID).1.hashCode = none
  ∧ (DelGroupMemberIDs g be groupID).1.hashCode = none
  ∧ (DelJoinedGroupID g be userIDs).1.hashCode = none
  ∧ (DelGroupMembersInfo g be groupID userIDs).1.hashCode = none
  ∧ (DelGroupsMemberNum g be groupIDs).1.hashCode = none
  ∧ (be.lookup (getGroupMembersHashKey groupID) = none →
      (GetGroupMembersHash (NewCache g) be groupID).1 = .error .nilFunc) := by
  refine ⟨rfl, rfl, rfl, rfl, rfl, rfl, rfl, ?_⟩
  intro hmiss
  simp [GetGroupMembersHash, getCache, hmiss, NewCache]

/-- C4 witness: on the empty backend, the NewCache-derived instance
reaches the nil-function outcome. -/
theorem newCache_nil_hashCode_witness :
    (GetGroupMembersHash (NewCache demoCache) [] "g1").1 = .error .nilFunc :=
  (newCache_nil_hashCode demoCache [] [] [] "g1").2.2.2.2.2.2.2 rfl

end OpenIM.GroupCache
namespace OpenIM.GroupCache

/-- Paginate on the empty list is empty whatever the page numbers. -/
lemma paginate_nil {α : Type} (pageNumber showNumber : Int) :
    Paginate ([] : List α) pageNumber showNumber = [] := by
  unfold Paginate
  split <;> [rfl; skip]
  split <;> simp

/-- An empty intersection makes BothExist empty. -/
lemma bothExist_eq_nil (u L : List String) (h : ∀ x, x ∈ u → x ∉ L) :
    BothExist u L = [] := by
  unfold BothExist
  rw [List.filter_eq_nil_iff]
  intro x hx
  simp only [decide_eq_true_iff]
  exact fun hu => h x hu hx

/-- C6: when the caller-supplied candidate list has empty intersection
with the cached member-ID list, GetGroupMembersPage returns total 0,
an empty member slice and no error. -/
theorem page_empty_intersection (g : GroupCacheRedis) (be : Backend) (groupID : String)
    (u L : List String) (showNumber pageNumber : Int)
    (hids : (GetGroupMemberIDs g be groupID).1 = .ok L)
    (hempty : ∀ x, x ∈ u → x ∉ L) :
    (GetGroupMembersPage g be groupID (some u) showNumber pageNumber).1 = (0, [], none) := by
  unfold GetGroupMembersPage
  rcases hG : GetGroupMemberIDs g be groupID with ⟨r, be1⟩
  rw [hG] at hids
  cases r with
  | error e => exact absurd hids (by simp)
  | ok L0 =>
    have hL : L0 = L := by simpa using hids
    subst hL
    simp only [bothExist_eq_nil u L0 hempty, paginate_nil]
    rw [show GetGroupMembersInfo g be1 groupID [] = (.ok [], be1) from rfl]
    rfl

/-- C6 witness: a candidate list disjoint from the demonstration
group's members yields (0, [], nil). -/
theorem page_empty_intersection_witness :
    (GetGroupMembersPage demoCache [] "g1" (some ["zz"]) 3 1).1 = (0, [], none) :=
  page_empty_intersection demoCache [] "g1" ["zz"] demoIDs 3 1 rfl (by decide)

end OpenIM.GroupCache
namespace OpenIM.GroupCache

/-- The page slice is a contiguous part of the candidate list. -/
lemma paginate_sublist {α : Type} (es : List α) (pageNumber showNumber : Int) :
    (Paginate es pageNumber showNumber).Sublist es := by
  unfold Paginate
  split
  · exact List.nil_sublist es
  split
  · exact List.nil_sublist es
  · exact ((es.drop ((pageNumber - 1) * showNumber).toNat).take_sublist _).trans
      (es.drop_sublist _)

/-- C3: with a caller-supplied candidate list, GetGroupMembersPage
works on the intersection of that list with the cached member-ID
list: the reported total is the intersection's size, the intersection
is a sublist of the cached list (cached order, cached-order page
slices), its members are exactly the common elements, and the result
is invariant under reordering of the caller-supplied list. -/
theorem page_candidate_intersection (g : GroupCacheRedis) (be : Backend) (groupID : String)
    (u L : List String) (showNumber pageNumber : Int)
    (hids : (GetGroupMemberIDs g be groupID).1 = .ok L) :
    (GetGroupMembersPage g be groupID (some u) showNumber pageNumber).1.1
        = u32 (BothExist u L).length
  ∧ (BothExist u L).Sublist L
  ∧ (∀ x, x ∈ BothExist u L ↔ x ∈ u ∧ x ∈ L)
  ∧ (Paginate (BothExist u L) showNumber showNumber).Sublist (BothExist u L)
  ∧ (∀ u', (∀ x, x ∈ u ↔ x ∈ u') →
      GetGroupMembersPage g be groupID (some u) showNumber pageNumber
        = GetGroupMembersPage g be groupID (some u') showNumber pageNumber) := by
  refine ⟨?_, ?_, ?_, paginate_sublist _ _ _, ?_⟩
  · unfold GetGroupMembersPage
    rcases hG : GetGroupMemberIDs g be groupID with ⟨r, be1⟩
    rw [hG] at hids
    cases r with
    | error e => exact absurd hids (by simp)
    | ok L0 =>
      have hL : L0 = L := by simpa using hids
      subst hL
      rcases hM : GetGroupMembersInfo g be1 groupID
          (Paginate (BothExist u L0) showNumber showNumber) with ⟨mr, be2⟩
      cases mr <;> simp [hM]
  · exact List.filter_sublist L
  · intro x
    simp [BothExist, List.mem_filter, and_comm]
  · intro u' hu
    have hBE : BothExist u L = BothExist u' L := by
      unfold BothExist
      exact List.filter_congr (fun x _ => decide_eq_decide.mpr (hu x))
    unfold GetGroupMembersPage
    rcases hG : GetGroupMemberIDs g be groupID with ⟨r, be1⟩
    cases r with
    | error e => rfl
    | ok L0 =>
      rw [hG] at hids
      have hL : L0 = L := by simpa using hids
      subst hL
      simp only [hBE]

/-- C3 witness: on the demonstration group, the total for candidates
["u3", "u1", "zz"] is the size of their intersection with the cached
member list. -/
theorem page_candidate_intersection_witness :
    (GetGroupMembersPage demoCache [] "g1" (some ["u3", "u1", "zz"]) 2 1).1.1
      = u32 (BothExist ["u3", "u1", "zz"] demoIDs).length :=
  (page_candidate_intersection demoCache [] "g1" ["u3", "u1", "zz"] demoIDs 2 1 rfl).1

/-- The search loop of the index helpers finds the first occurrence
of the key and fails with errIndex when the key is absent. -/
lemma keyIndexLoop_spec (key : String) (keys : List String) : ∀ (i : Nat),
    (key ∈ keys → ∃ d, keyIndexLoop key keys i = (i + d, none)
        ∧ keys.get? d = some key ∧ ∀ j, j < d → keys.get? j ≠ some key)
  ∧ (key ∉ keys → keyIndexLoop key keys i = (0, some errIndex)) := by
  induction keys with
  | nil =>
    intro i
    exact ⟨fun h => absurd h (List.not_mem_nil key), fun _ => rfl⟩
  | cons k ks ih =>
    intro i
    constructor
    · intro hmem
      by_cases hk : k = key
      · refine ⟨0, ?_, ?_, ?_⟩
        · simp [keyIndexLoop, hk]
        · simp [hk]
        · intro j hj
          exact absurd hj (Nat.not_lt_zero j)
      · have hmem' : key ∈ ks := by
          rcases List.mem_cons.mp hmem with h | h
          · exact absurd h.symm hk
          · exact h
        obtain ⟨d, hloop, hget, hfirst⟩ := (ih (i + 1)).1 hmem'
        have hkb : (k == key) = false := beq_eq_false_iff_ne.mpr hk
        refine ⟨d + 1, ?_, ?_, ?_⟩
        · rw [keyIndexLoop, hkb]
          simp only [Bool.false_eq_true, if_false, hloop]
          congr 1
          omega
        · simpa using hget
        · intro j hj
          cases j with
          | zero =>
            simp only [List.get?]
            intro he
            exact hk (by simpa using he)
          | succ j' =>
            simp only [List.get?]
            exact hfirst j' (by omega)
    · intro hnot
      have hkb : (k == key) = false :=
        beq_eq_false_iff_ne.mpr (fun he => hnot (he ▸ List.mem_cons_self k ks))
      have hnot' : key ∉ ks := fun h => hnot (List.mem_cons_of_mem _ h)
      rw [keyIndexLoop, hkb]
      simp only [Bool.false_eq_true, if_false]
      exact (ih (i + 1)).2 hnot'

/-- C7: GetGroupIndex and GetGroupMemberIndex return the index of the
first occurrence of the item's computed cache key with a nil error
when the key is present, and the dedicated errIndex (distinct from
NotFound) when it is absent. -/
theorem index_helpers_first_occurrence (g : GroupCacheRedis) (group : GroupModel)
    (groupMember : GroupMemberModel) (keys mkeys : List String) :
    (getGroupInfoKey group.groupID ∈ keys →
      ∃ d, GetGroupIndex g group keys = (d, none)
        ∧ keys.get? d = some (getGroupInfoKey group.groupID)
        ∧ ∀ j, j < d → keys.get? j ≠ some (getGroupInfoKey group.groupID))
  ∧ (getGroupInfoKey group.groupID ∉ keys →
      GetGroupIndex g group keys = (0, some errIndex))
  ∧ (getGroupMemberInfoKey groupMember.groupID groupMember.userID ∈ mkeys →
      ∃ d, GetGroupMemberIndex g groupMember mkeys = (d, none)
        ∧ mkeys.get? d = some (getGroupMemberInfoKey groupMember.groupID groupMember.userID)
        ∧ ∀ j, j < d →
            mkeys.get? j ≠ some (getGroupMemberInfoKey groupMember.groupID groupMember.userID))
  ∧ (getGroupMemberInfoKey groupMember.groupID groupMember.userID ∉ mkeys →
      GetGroupMemberIndex g groupMember mkeys = (0, some errIndex))
  ∧ errIndex ≠ Err.notFound := by
  refine ⟨?_, ?_, ?_, ?_, by decide⟩
  · intro hmem
    obtain ⟨d, hloop, hget, hfirst⟩ := (keyIndexLoop_spec _ keys 0).1 hmem
    exact ⟨d, by simpa [GetGroupIndex] using hloop, hget, hfirst⟩
  · intro hnot
    exact (keyIndexLoop_spec _ keys 0).2 hnot
  · intro hmem
    obtain ⟨d, hloop, hget, hfirst⟩ := (keyIndexLoop_spec _ mkeys 0).1 hmem
    exact ⟨d, by simpa [GetGroupMemberIndex] using hloop, hget, hfirst⟩
  · intro hnot
    exact (keyIndexLoop_spec _ mkeys 0).2 hnot

/-- C7 witness: the group's key is found at its first position, and a
key list without it yields errIndex. -/
theorem index_helpers_first_occurrence_witness :
    (∃ d, GetGroupIndex demoCache ⟨"g1", "demo"⟩ [getGroupInfoKey "g1"] = (d, none)
        ∧ [getGroupInfoKey "g1"].get? d = some (getGroupInfoKey "g1")
        ∧ ∀ j, j < d → [getGroupInfoKey "g1"].get? j ≠ some (getGroupInfoKey "g1"))
  ∧ GetGroupMemberIndex demoCache ⟨"g1", "u0", 0⟩ [] = (0, some errIndex) :=
  ⟨(index_helpers_first_occurrence demoCache ⟨"g1", "demo"⟩ ⟨"g1", "u0", 0⟩
      [getGroupInfoKey "g1"] []).1 (by simp),
   (index_helpers_first_occurrence demoCache ⟨"g1", "demo"⟩ ⟨"g1", "u0", 0⟩
      [getGroupInfoKey "g1"] []).2.2.2.1 (by simp)⟩

end OpenIM.GroupCache
namespace OpenIM.GroupCache

lemma writesWithTTL_refl (be : Backend) (t : Nat) : WritesWithTTL be be t :=
  fun _ _ h => Or.inl h

lemma writesWithTTL_trans {be be1 be2 : Backend} {t : Nat}
    (h1 : WritesWithTTL be be1 t) (h2 : WritesWithTTL be1 be2 t) :
    WritesWithTTL be be2 t := by
  intro k e hk
  rcases h2 k e hk with h | h
  · exact h1 k e h
  · exact Or.inr h

/-- getCache writes at most one entry, under the TTL it was given. -/
lemma getCache_writesWithTTL {α : Type} (be : Backend) (key : String) (expire : Nat)
    (enc : α → CVal) (dec : CVal → Option α) (load : Except Err α) :
    WritesWithTTL be (getCache be key expire enc dec load).2 expire := by
  unfold getCache
  rcases hbe : be.lookup key with _ | e0
  · show WritesWithTTL be (match load with
      | Except.ok v => (Except.ok v, (key, Entry.mk (enc v) expire) :: be)
      | Except.error e => (Except.error e, be)).2 expire
    cases load with
    | error er => exact writesWithTTL_refl be expire
    | ok v =>
      intro k e hk
      rw [List.lookup_cons] at hk
      rcases hkk : k == key with _ | _ <;> rw [hkk] at hk
      · exact Or.inl (by simpa using hk)
      · have he : (⟨enc v, expire⟩ : Entry) = e := by simpa using hk
        exact Or.inr (congrArg Entry.ttl he).symm
  · show WritesWithTTL be (match dec e0.val with
      | some v => (Except.ok v, be)
      | none => (Except.error Err.decodeFail, be)).2 expire
    cases dec e0.val <;> exact writesWithTTL_refl be expire

/-- batchGetCache2 writes only entries carrying the TTL it was
given. -/
lemma batchGetCache2_writesWithTTL {α K : Type} (be : Backend) (expire : Nat)
    (keys : List K) (keyOf : K → String) (enc : α → CVal) (dec : CVal → Option α)
    (load : K → Except Err α) :
    WritesWithTTL be (batchGetCache2 be expire keys keyOf enc dec load).2 expire := by
  induction keys generalizing be with
  | nil => exact writesWithTTL_refl be expire
  | cons k ks ih =>
    rw [batchGetCache2]
    rcases hg : getCache be (keyOf k) expire enc dec (load k) with ⟨r, be1⟩
    have h1 : WritesWithTTL be be1 expire := by
      have := getCache_writesWithTTL be (keyOf k) expire enc dec (load k)
      rw [hg] at this
      exact this
    cases r with
    | error e =>
      cases e <;>
        first
          | exact writesWithTTL_trans h1 (ih be1)
          | exact h1
    | ok v =>
      have h2 := ih be1
      rcases hb : batchGetCache2 be1 expire ks keyOf enc dec load with ⟨rs, be2⟩
      rw [hb] at h2
      simp only [hb]
      cases rs <;> exact writesWithTTL_trans h1 h2

/-- C10: the constructor fixes expireTime to the 12-hour
groupExpireTime, and every read operation passes exactly the
instance's expireTime as the TTL of each entry it stores — the same
uniform TTL for every entity type. -/
theorem uniform_ttl (groupDB : List GroupModel) (memberDB : List GroupMemberModel)
    (hashCode : Option (String → Except Err Nat)) (g : GroupCacheRedis) (be : Backend)
    (groupID userID : String) (groupIDs userIDs : List String) :
    (NewGroupCacheRedis groupDB memberDB hashCode).expireTime = groupExpireTime
  ∧ groupExpireTime = 43200
  ∧ WritesWithTTL be (GetGroupInfo g be groupID).2 g.expireTime
  ∧ WritesWithTTL be (GetGroupsInfo g be groupIDs).2 g.expireTime
  ∧ WritesWithTTL be (GetGroupMemberIDs g be groupID).2 g.expireTime
  ∧ WritesWithTTL be (GetGroupMembersHash g be groupID).2 g.expireTime
  ∧ WritesWithTTL be (GetGroupMemberInfo g be groupID userID).2 g.expireTime
  ∧ WritesWithTTL be (GetGroupMembersInfo g be groupID userIDs).2 g.expireTime
  ∧ WritesWithTTL be (GetJoinedGroupIDs g be userID).2 g.expireTime
  ∧ WritesWithTTL be (GetGroupMemberNum g be groupID).2 g.expireTime :=
  ⟨rfl, rfl,
   getCache_writesWithTTL _ _ _ _ _ _,
   batchGetCache2_writesWithTTL _ _ _ _ _ _ _,
   getCache_writesWithTTL _ _ _ _ _ _,
   getCache_writesWithTTL _ _ _ _ _ _,
   getCache_writesWithTTL _ _ _ _ _ _,
   batchGetCache2_writesWithTTL _ _ _ _ _ _ _,
   getCache_writesWithTTL _ _ _ _ _ _,
   getCache_writesWithTTL _ _ _ _ _ _⟩

/-- C10 witness: a load on the empty backend stores its entry with the
12-hour TTL. -/
theorem uniform_ttl_witness :
    WritesWithTTL [] (GetGroupInfo demoCache [] "g1").2 demoCache.expireTime :=
  (uniform_ttl demoGroups demoMembers none demoCache [] "g1" "u0" [] []).2.2.1

end OpenIM.GroupCache
namespace OpenIM.GroupCache

lemma decU64_encU64 (a : Nat) : decU64 (encU64 a) = some a := rfl

lemma decI64_encI64 (a : Int) : decI64 (encI64 a) = some a := rfl

/-- Entries survive a getCache step: the step only prepends a key that
was absent before. -/
lemma getCache_preserve {α : Type} (be : Backend) (key : String) (expire : Nat)
    (enc : α → CVal) (dec : CVal → Option α) (load : Except Err α)
    (r : Except Err α) (be' : Backend)
    (heq : getCache be key expire enc dec load = (r, be'))
    (k : String) (e : Entry) (hk : be.lookup k = some e) : be'.lookup k = some e := by
  unfold getCache at heq
  split at heq
  · split at heq <;> (injection heq with h1 h2; rw [← h2]; exact hk)
  · rename_i hbe
    split at heq
    · rename_i v hload
      injection heq with h1 h2
      rw [← h2, List.lookup_cons]
      rcases hkk : k == key with _ | _
      · simpa using hk
      · exfalso
        have hkey : k = key := by simpa using hkk
        rw [hkey, hbe] at hk
        cases hk
    · injection heq with h1 h2
      rw [← h2]
      exact hk

/-- A successful getCache leaves a decodable entry for its key. -/
lemma getCache_ok_state {α : Type} (be : Backend) (key : String) (expire : Nat)
    (enc : α → CVal) (dec : CVal → Option α) (load : Except Err α) (v : α) (be' : Backend)
    (hde : ∀ a, dec (enc a) = some a)
    (heq : getCache be key expire enc dec load = (.ok v, be')) :
    ∃ e, be'.lookup key = some e ∧ dec e.val = some v := by
  unfold getCache at heq
  split at heq
  · rename_i e0 hbe
    split at heq
    · rename_i v0 hdec
      injection heq with h1 h2
      injection h1 with h3
      rw [h3] at hdec
      exact ⟨e0, by rw [← h2]; exact hbe, hdec⟩
    · exact absurd heq (by simp)
  · split at heq
    · injection heq with h1 h2
      injection h1 with h3
      rw [h3] at h2
      refine ⟨Entry.mk (enc v) expire, ?_, ?_⟩
      · rw [← h2, List.lookup_cons]
        simp
      · exact hde v
    · exact absurd heq (by simp)

/-- A getCache on a key with a decodable entry is a pure hit. -/
lemma getCache_hit {α : Type} (be : Backend) (key : String) (expire : Nat)
    (enc : α → CVal) (dec : CVal → Option α) (load : Except Err α) (e : Entry) (v : α)
    (hbe : be.lookup key = some e) (hdec : dec e.val = some v) :
    getCache be key expire enc dec load = (.ok v, be) := by
  unfold getCache
  simp [hbe, hdec]

/-- A value once served by getCache is served again, with any loader,
on any backend that preserves the entries of the state it left. -/
lemma getCache_read_stable {α : Type} {be be1 be2 : Backend} {key : String} {expire : Nat}
    {enc : α → CVal} {dec : CVal → Option α} {load load2 : Except Err α} {v : α}
    (hde : ∀ a, dec (enc a) = some a)
    (heq : getCache be key expire enc dec load = (.ok v, be1))
    (hp : ∀ k e, be1.lookup k = some e → be2.lookup k = some e) :
    getCache be2 key expire enc dec load2 = (.ok v, be2) := by
  obtain ⟨e, he, hdec⟩ := getCache_ok_state be key expire enc dec load v be1 hde heq
  exact getCache_hit be2 key expire enc dec load2 e v (hp key e he) hdec

/-- Lookup skips a prefix none of whose keys match. -/
lemma lookup_append_of_not_mem {β : Type} (l1 l2 : List (String × β)) (k : String)
    (h : ∀ p ∈ l1, p.1 ≠ k) : (l1 ++ l2).lookup k = l2.lookup k := by
  induction l1 with
  | nil => rfl
  | cons p l ih =>
    rw [List.cons_append, List.lookup_cons]
    have hkp : (k == p.1) = false :=
      beq_eq_false_iff_ne.mpr (fun he => (h p (List.mem_cons_self p l)) he.symm)
    simp only [hkp]
    exact ih (fun q hq => h q (List.mem_cons_of_mem _ hq))

/-- The hash-map loop only adds entries to the backend. -/
lemma hashMapLoop_preserves (g : GroupCacheRedis) :
    ∀ (gids : List String) (be : Backend) (res : List (String × GroupSimpleUserID))
      (k : String) (e : Entry), be.lookup k = some e →
      ((hashMapLoop g be gids res).2).lookup k = some e := by
  intro gids
  induction gids with
  | nil =>
    intro be res k e hk
    exact hk
  | cons gid rest ih =>
    intro be res k e hk
    rcases hh : GetGroupMembersHash g be gid with ⟨rh, be1⟩
    have hk1 : be1.lookup k = some e := getCache_preserve _ _ _ _ _ _ _ _ hh k e hk
    cases rh with
    | error er =>
      have hstep : hashMapLoop g be (gid :: rest) res = (.error er, be1) := by
        simp only [hashMapLoop, hh]
      rw [hstep]
      exact hk1
    | ok hsh =>
      rcases hn : GetGroupMemberNum g be1 gid with ⟨rn, be2⟩
      have hk2 : be2.lookup k = some e := getCache_preserve _ _ _ _ _ _ _ _ hn k e hk1
      cases rn with
      | error er =>
        have hstep : hashMapLoop g be (gid :: rest) res = (.error er, be2) := by
          simp only [hashMapLoop, hh, hn]
        rw [hstep]
        exact hk2
      | ok num =>
        have hstep : hashMapLoop g be (gid :: rest) res
            = hashMapLoop g be2 rest ((gid, ⟨hsh, u32OfInt num⟩) :: res) := by
          simp only [hashMapLoop, hh, hn]
        rw [hstep]
        exact ih be2 _ k e hk2

/-- A successful hash-map loop extends the accumulator with pairs
whose keys come from the processed IDs. -/
lemma hashMapLoop_shape (g : GroupCacheRedis) :
    ∀ (gids : List String) (be : Backend) (res res' : List (String × GroupSimpleUserID))
      (be' : Backend), hashMapLoop g be gids res = (.ok res', be') →
      ∃ np, res' = np ++ res ∧ ∀ p ∈ np, p.1 ∈ gids := by
  intro gids
  induction gids with
  | nil =>
    intro be res res' be' h
    rw [hashMapLoop] at h
    injection h with h1 h2
    have hres : res = res' := by simpa using h1
    exact ⟨[], by rw [← hres]; simp, by simp⟩
  | cons gid rest ih =>
    intro be res res' be' h
    rcases hh : GetGroupMembersHash g be gid with ⟨rh, be1⟩
    cases rh with
    | error er =>
      have hstep : hashMapLoop g be (gid :: rest) res = (.error er, be1) := by
        simp only [hashMapLoop, hh]
      rw [hstep] at h
      exact absurd h (by simp)
    | ok hsh =>
      rcases hn : GetGroupMemberNum g be1 gid with ⟨rn, be2⟩
      cases rn with
      | error er =>
        have hstep : hashMapLoop g be (gid :: rest) res = (.error er, be2) := by
          simp only [hashMapLoop, hh, hn]
        rw [hstep] at h
        exact absurd h (by simp)
      | ok num =>
        have hstep : hashMapLoop g be (gid :: rest) res
            = hashMapLoop g be2 rest ((gid, ⟨hsh, u32OfInt num⟩) :: res) := by
          simp only [hashMapLoop, hh, hn]
        rw [hstep] at h
        obtain ⟨np, hnp, hkeys⟩ := ih be2 _ res' be' h
        refine ⟨np ++ [(gid, ⟨hsh, u32OfInt num⟩)], ?_, ?_⟩
        · rw [hnp, List.append_assoc]
          rfl
        · intro p hp
          rcases List.mem_append.mp hp with h1 | h1
          · exact List.mem_cons_of_mem _ (hkeys p h1)
          · have hpe : p = (gid, ⟨hsh, u32OfInt num⟩) := by simpa using h1
            rw [hpe]
            exact List.mem_cons_self _ _

/-- Core of C5: a successful loop yields, for every processed ID, the
pair of its hash and count, both reproducible against the final
backend state. -/
lemma hashMapLoop_ok (g : GroupCacheRedis) :
    ∀ (gids : List String) (be : Backend) (res res' : List (String × GroupSimpleUserID))
      (be' : Backend), hashMapLoop g be gids res = (.ok res', be') →
      ∀ gid, gid ∈ gids →
        ∃ hsh num, res'.lookup gid = some ⟨hsh, u32OfInt num⟩
          ∧ GetGroupMembersHash g be' gid = (.ok hsh, be')
          ∧ GetGroupMemberNum g be' gid = (.ok num, be') := by
  intro gids
  induction gids with
  | nil =>
    intro be res res' be' h gid hgid
    exact absurd hgid (List.not_mem_nil gid)
  | cons gid0 rest ih =>
    intro be res res' be' h gid hgid
    rcases hh : GetGroupMembersHash g be gid0 with ⟨rh, be1⟩
    cases rh with
    | error er =>
      have hstep : hashMapLoop g be (gid0 :: rest) res = (.error er, be1) := by
        simp only [hashMapLoop, hh]
      rw [hstep] at h
      exact absurd h (by simp)
    | ok hsh =>
      rcases hn : GetGroupMemberNum g be1 gid0 with ⟨rn, be2⟩
      cases rn with
      | error er =>
        have hstep : hashMapLoop g be (gid0 :: rest) res = (.error er, be2) := by
          simp only [hashMapLoop, hh, hn]
        rw [hstep] at h
        exact absurd h (by simp)
      | ok num =>
        have hstep : hashMapLoop g be (gid0 :: rest) res
            = hashMapLoop g be2 rest ((gid0, ⟨hsh, u32OfInt num⟩) :: res) := by
          simp only [hashMapLoop, hh, hn]
        rw [hstep] at h
        rcases List.mem_cons.mp hgid with hg0 | hgrest
        · subst hg0
          have hpres : ∀ k e, be2.lookup k = some e → be'.lookup k = some e := by
            intro k e hk
            have hkeep := hashMapLoop_preserves g rest be2
              ((gid, ⟨hsh, u32OfInt num⟩) :: res) k e hk
            rw [h] at hkeep
            exact hkeep
          by_cases hmem : gid ∈ rest
          · exact ih be2 _ res' be' h gid hmem
          · obtain ⟨np, hnp, hkeys⟩ := hashMapLoop_shape g rest be2 _ res' be' h
            have hpres12 : ∀ k e, be1.lookup k = some e → be2.lookup k = some e :=
              fun k e hk => getCache_preserve _ _ _ _ _ _ _ _ hn k e hk
            have hp1 : ∀ k e, be1.lookup k = some e → be'.lookup k = some e :=
              fun k e hk => hpres k e (hpres12 k e hk)
            have hnot : ∀ p ∈ np, p.1 ≠ gid :=
              fun p hp hpe => hmem (hpe ▸ hkeys p hp)
            refine ⟨hsh, num, ?_, ?_, ?_⟩
            · rw [hnp, lookup_append_of_not_mem np _ gid hnot, List.lookup_cons]
              simp
            · exact getCache_read_stable decU64_encU64 hh hp1
            · exact getCache_read_stable decI64_encI64 hn hpres
        · exact ih be2 _ res' be' h gid hgrest

/-- C5: GetGroupMemberHashMap pairs every requested group ID with its
membership hash and its (uint32-truncated) member count, and fails
fast — an error from the hash or the count lookup of any single group
ID becomes the result of the whole call, with no partial map. -/
theorem hashmap_pairs_and_fail_fast (g : GroupCacheRedis) (be : Backend)
    (groupIDs : List String) :
    (∀ res be', GetGroupMemberHashMap g be groupIDs = (.ok res, be') →
      ∀ gid, gid ∈ groupIDs →
        ∃ hsh num, res.lookup gid = some ⟨hsh, u32OfInt num⟩
          ∧ (GetGroupMembersHash g be' gid).1 = .ok hsh
          ∧ (GetGroupMemberNum g be' gid).1 = .ok num)
  ∧ (∀ gid rest e be1, GetGroupMembersHash g be gid = (.error e, be1) →
      GetGroupMemberHashMap g be (gid :: rest) = (.error e, be1))
  ∧ (∀ gid rest hsh e be1 be2, GetGroupMembersHash g be gid = (.ok hsh, be1) →
      GetGroupMemberNum g be1 gid = (.error e, be2) →
      GetGroupMemberHashMap g be (gid :: rest) = (.error e, be2)) := by
  refine ⟨?_, ?_, ?_⟩
  · intro res be' h gid hgid
    obtain ⟨hsh, num, hl, hh, hn⟩ := hashMapLoop_ok g groupIDs be [] res be' h gid hgid
    exact ⟨hsh, num, hl, by rw [hh], by rw [hn]⟩
  · intro gid rest e be1 hh
    show hashMapLoop g be (gid :: rest) [] = (.error e, be1)
    simp only [hashMapLoop, hh]
  · intro gid rest hsh e be1 be2 hh hn
    show hashMapLoop g be (gid :: rest) [] = (.error e, be2)
    simp only [hashMapLoop, hh, hn]

/-- C5 witness: with the nil hash loader of a NewCache-derived
instance, the first group's hash lookup fails and the whole call
returns that error with no map. -/
theorem hashmap_fail_fast_witness :
    GetGroupMemberHashMap (NewCache demoCache) [] ["g1"] = (.error .nilFunc, []) :=
  (hashmap_pairs_and_fail_fast (NewCache demoCache) [] ["g1"]).2.1 "g1" [] .nilFunc [] rfl

end OpenIM.GroupCache
